/-
Verification of the article-to-prediction pipeline of `analisis-de-noticias`.

Shallow embedding of the core phases:
  * Analysis Phase        — `run_sentiment_analysis` (src/core/orchestrator.py)
                            with the Supabase handler operations it calls
                            (src/core/supabase_handler.py);
  * Collection Phase      — `run_data_collection` (src/core/orchestrator.py),
                            `upload_article_text` / `insert_article_metadata`
                            (src/core/supabase_handler.py) and
                            `get_article_content` (src/agents/scrapers/news_agent.py);
  * Feature Assembly      — `load_price_data`, `load_sentiment_data`,
                            `create_features_and_target` (src/core/prediction_model.py).

External effects (Supabase storage/table, the LLM scorer, HTTP fetches,
yfinance) are modelled as explicit state plus deterministic environment
functions; fallible calls return `Option`/`Except`.
-/
import Mathlib

/-! ## Analysis Phase: data model

`news_articles` rows as seen by Phase 2: the surrogate `id`, the blob
`storage_path`, and the nullable analysis columns the phase writes.
`sentiment_score` is the column the backlog query filters on. -/

/-- A row of the `news_articles` table (the fields Phase 2 reads or writes).
Nullable SQL columns are `Option`s. -/
structure Row where
  id : ℕ
  storage_path : String
  sentiment_score : Option ℚ
  relevance_score : Option ℤ
  stock_ticker : Option String
  deriving DecidableEq

/-- The projection `select("id, storage_path")` returned by
`get_articles_needing_analysis`. -/
structure BatchItem where
  id : ℕ
  storage_path : String
  deriving DecidableEq

/-- The `analysis_data` dict parsed from the scorer output in
`run_sentiment_analysis`.  `hasError` models presence of the `"error"` key
(the scorer's explicit error marker); each `Option` field models presence of
that key.  Out-of-range values are representable on purpose: nothing in the
code restricts them. -/
structure AnalysisData where
  hasError : Bool
  sentiment_score : Option ℚ
  relevance_score : Option ℤ
  stock_ticker : Option String
  deriving DecidableEq

/-- The empty dict `analysis_data = {}` the orchestrator starts from. -/
def emptyData : AnalysisData :=
  { hasError := false, sentiment_score := none, relevance_score := none,
    stock_ticker := none }

/-- What `agent_ia.analyze_article_for_quant` returns: the Gemini agent
returns a JSON string, the Claude agent returns a dict; anything else falls
through both `isinstance` checks in the orchestrator. -/
inductive ScorerOutput
  | str (s : String)
  | dict (d : AnalysisData)
  | other
  deriving DecidableEq

/-- Deterministic environment for one analysis run: the storage download,
the scorer call, JSON decoding (`json.loads`, `none` on `JSONDecodeError`),
and whether the UPDATE in `update_article_with_analysis` executes without
raising (keyed by article id). -/
structure AnalysisEnv where
  download : String → Option String
  analyze : String → ScorerOutput
  parseJSON : String → Option AnalysisData
  updateOk : ℕ → Bool

/-! ## Analysis Phase: operations (supabase_handler.py) -/

/-- `get_articles_needing_analysis(limit)`: rows whose `sentiment_score` IS
NULL, at most `limit` of them, projected to `id, storage_path`
(src/core/supabase_handler.py:76-97). -/
def get_articles_needing_analysis (rows : List Row) (limit : ℕ) : List BatchItem :=
  ((rows.filter fun r => r.sentiment_score.isNone).take limit).map
    fun r => ⟨r.id, r.storage_path⟩

/-- SQL UPDATE semantics for one column: a key present in the payload
overwrites the column, an absent key leaves it. -/
def setCol {α : Type} : Option α → Option α → Option α
  | some v, _ => some v
  | none, old => old

/-- Effect of `update(analysis_data)` on one row: exactly the supplied keys
are written. -/
def applyAnalysis (d : AnalysisData) (r : Row) : Row :=
  { r with
    sentiment_score := setCol d.sentiment_score r.sentiment_score
    relevance_score := setCol d.relevance_score r.relevance_score
    stock_ticker := setCol d.stock_ticker r.stock_ticker }

/-- `update_article_with_analysis(article_id, analysis_data)`
(src/core/supabase_handler.py:113-130): updates the row matching `id`; any
exception is caught, printed and swallowed — the function reports no outcome
and on failure the table is unchanged. -/
def update_article_with_analysis (env : AnalysisEnv) (article_id : ℕ)
    (d : AnalysisData) (rows : List Row) : List Row :=
  if env.updateOk article_id then
    rows.map fun r => if r.id = article_id then applyAnalysis d r else r
  else
    rows

/-! ## Analysis Phase: orchestrator loop (orchestrator.py:60-122) -/

/-- Body of the `for article in articles_to_process` loop
(src/core/orchestrator.py:84-116).  Returns the new table state and the
increment of `total_articulos_analizados_en_esta_ejecucion` (0 or 1). -/
def processArticle (env : AnalysisEnv) (a : BatchItem) (rows : List Row) :
    List Row × ℕ :=
  match env.download a.storage_path with
  | none => (rows, 0)
  | some text =>
    let analysis_output := env.analyze text
    let data? : Option AnalysisData :=
      match analysis_output with
      | .str s => env.parseJSON s
      | .dict d => some d
      | .other => some emptyData
    match data? with
    | none => (rows, 0)
    | some d =>
      if d.hasError then (rows, 0)
      else (update_article_with_analysis env a.id d rows, 1)

/-- One batch of the inner loop, processed left to right, threading the
table state and summing the counter. -/
def processBatch (env : AnalysisEnv) (batch : List BatchItem)
    (rows : List Row) : List Row × ℕ :=
  match batch with
  | [] => (rows, 0)
  | a :: rest =>
    let s1 := processArticle env a rows
    let s2 := processBatch env rest s1.1
    (s2.1, s1.2 + s2.2)

/-- Observable outcome of one call to `run_sentiment_analysis`. -/
structure RunResult where
  rows : List Row
  /-- `total_articulos_analizados_en_esta_ejecucion` (printed at the end). -/
  analyzed : ℕ
  /-- Fetch-batch loop iterations entered (the final empty fetch counts). -/
  iterations : ℕ
  /-- Whether the loop exited through the empty-query `break` (as opposed to
  the step budget running out, which models non-termination). -/
  terminated : Bool
  /-- Ids handed to the inner loop, in order, with multiplicity. -/
  processed : List ℕ
  deriving DecidableEq

/-- `run_sentiment_analysis(batch_size)` (src/core/orchestrator.py:60-122):
`while True:` fetch a batch of unscored rows, `break` on empty, otherwise
process each article.  The Python loop has no other exit; `fuel` bounds the
number of iterations we unroll, and `terminated = false` means the loop was
still running when the budget ran out. -/
def run_sentiment_analysis (env : AnalysisEnv) (batch_size : ℕ) :
    ℕ → List Row → RunResult
  | 0, rows => ⟨rows, 0, 0, false, []⟩
  | fuel + 1, rows =>
    let batch := get_articles_needing_analysis rows batch_size
    if batch.isEmpty then ⟨rows, 0, 1, true, []⟩
    else
      let s := processBatch env batch rows
      let rest := run_sentiment_analysis env batch_size fuel s.1
      ⟨rest.rows, s.2 + rest.analyzed, rest.iterations + 1, rest.terminated,
        batch.map BatchItem.id ++ rest.processed⟩

/-! ## Analysis Phase: helper notions for the termination analysis -/

/-- The backlog: rows whose `sentiment_score` IS NULL. -/
def unscored (rows : List Row) : List Row :=
  rows.filter fun r => r.sentiment_score.isNone

/-- `ceil(n / b)` on naturals. -/
def ceilBatches (n b : ℕ) : ℕ := (n + b - 1) / b

/-- The per-article decode pipeline of the orchestrator, collapsed to its
outcome: `some d` exactly when processing reaches the update step with
parsed record `d`, `none` when the article is skipped (download failure,
JSON decode failure, or the explicit error marker). -/
def decodeOutcome (env : AnalysisEnv) (path : String) : Option AnalysisData :=
  match env.download path with
  | none => none
  | some text =>
    let data? : Option AnalysisData :=
      match env.analyze text with
      | .str s => env.parseJSON s
      | .dict d => some d
      | .other => some emptyData
    match data? with
    | none => none
    | some d => if d.hasError then none else some d

/-- A batch item processes successfully end to end: the decode pipeline
accepts it with a record that actually sets `sentiment_score`, and the row
update does not raise. -/
def GoodItem (env : AnalysisEnv) (a : BatchItem) : Prop :=
  (∃ d, decodeOutcome env a.storage_path = some d ∧
    d.sentiment_score.isSome = true) ∧
  env.updateOk a.id = true

/-- The same condition, read off a table row. -/
def SucceedsOn (env : AnalysisEnv) (r : Row) : Prop :=
  GoodItem env ⟨r.id, r.storage_path⟩

theorem processArticle_of_decode (env : AnalysisEnv) (a : BatchItem)
    (rows : List Row) :
    processArticle env a rows =
      match decodeOutcome env a.storage_path with
      | some d => (update_article_with_analysis env a.id d rows, 1)
      | none => (rows, 0) := by
  unfold processArticle decodeOutcome
  cases hd : env.download a.storage_path with
  | none => rfl
  | some text =>
    cases ha : env.analyze text with
    | str s =>
      cases hp : env.parseJSON s with
      | none => simp [ha, hp]
      | some d => by_cases he : d.hasError <;> simp [ha, hp, he]
    | dict d => by_cases he : d.hasError <;> simp [ha, he]
    | other => by_cases he : emptyData.hasError <;> simp [ha, he]

theorem applyAnalysis_id (d : AnalysisData) (r : Row) :
    (applyAnalysis d r).id = r.id := rfl

theorem update_map_id (env : AnalysisEnv) (i : ℕ) (d : AnalysisData)
    (rows : List Row) :
    (update_article_with_analysis env i d rows).map Row.id =
      rows.map Row.id := by
  unfold update_article_with_analysis
  split
  · rw [List.map_map]
    apply List.map_congr_left
    intro r _
    by_cases h : r.id = i <;> simp [h, applyAnalysis]
  · rfl

theorem processArticle_map_id (env : AnalysisEnv) (a : BatchItem)
    (rows : List Row) :
    (processArticle env a rows).1.map Row.id = rows.map Row.id := by
  rw [processArticle_of_decode]
  cases decodeOutcome env a.storage_path with
  | none => rfl
  | some d => exact update_map_id env a.id d rows

/-- Updating an id that does not occur leaves the table unchanged. -/
theorem update_map_eq_self (i : ℕ) (d : AnalysisData) :
    ∀ rows : List Row, i ∉ rows.map Row.id →
      rows.map (fun r => if r.id = i then applyAnalysis d r else r) = rows := by
  intro rows
  induction rows with
  | nil => intro _; rfl
  | cons r0 rest ih =>
    intro h
    simp only [List.map_cons, List.mem_cons, not_or] at h ⊢
    have h0 : r0.id ≠ i := fun he => h.1 he.symm
    rw [if_neg h0, ih h.2]

/-- Rows still unscored after a successful scoring update were unscored
before, and are not the updated row. -/
theorem unscored_update_mem (env : AnalysisEnv) (i : ℕ) (d : AnalysisData)
    (rows : List Row) (hscore : d.sentiment_score.isSome = true)
    (hok : env.updateOk i = true) :
    ∀ r ∈ unscored (update_article_with_analysis env i d rows),
      r ∈ unscored rows ∧ r.id ≠ i := by
  obtain ⟨v, hv⟩ := Option.isSome_iff_exists.mp hscore
  intro r hr
  unfold unscored at hr ⊢
  rw [List.mem_filter] at hr
  obtain ⟨hmem, hnone⟩ := hr
  unfold update_article_with_analysis at hmem
  rw [if_pos hok] at hmem
  obtain ⟨r0, hr0, heq⟩ := List.mem_map.mp hmem
  by_cases h0 : r0.id = i
  · exfalso
    rw [if_pos h0] at heq
    rw [← heq] at hnone
    simp [applyAnalysis, hv, setCol] at hnone
  · rw [if_neg h0] at heq
    subst heq
    exact ⟨List.mem_filter.mpr ⟨hr0, hnone⟩, h0⟩

/-- A successful scoring update of a present unscored row shrinks the
backlog by exactly one (ids are pairwise distinct, as surrogate keys are). -/
theorem unscored_update_length (env : AnalysisEnv) (i : ℕ) (d : AnalysisData)
    (hscore : d.sentiment_score.isSome = true) (hok : env.updateOk i = true) :
    ∀ rows : List Row, (rows.map Row.id).Nodup →
      (∃ r ∈ rows, r.id = i ∧ r.sentiment_score = none) →
      (unscored (update_article_with_analysis env i d rows)).length + 1 =
        (unscored rows).length := by
  obtain ⟨v, hv⟩ := Option.isSome_iff_exists.mp hscore
  intro rows
  induction rows with
  | nil =>
    rintro _ ⟨r, hr, -⟩
    exact absurd hr (List.not_mem_nil r)
  | cons r0 rest ih =>
    rintro hnd ⟨r, hr, hri, hrs⟩
    rw [List.map_cons, List.nodup_cons] at hnd
    unfold update_article_with_analysis
    rw [if_pos hok, List.map_cons]
    by_cases h0 : r0.id = i
    · have hrr0 : r = r0 := by
        rcases List.mem_cons.mp hr with h | h
        · exact h
        · exact absurd (h0 ▸ hri ▸ List.mem_map_of_mem Row.id h) hnd.1
      have hrest : rest.map (fun r => if r.id = i then applyAnalysis d r else r)
          = rest := update_map_eq_self i d rest (h0 ▸ hnd.1)
      rw [if_pos h0, hrest]
      unfold unscored
      rw [List.filter_cons, List.filter_cons]
      have h1 : ((applyAnalysis d r0).sentiment_score.isNone) = false := by
        simp [applyAnalysis, hv, setCol]
      have h2 : (r0.sentiment_score.isNone) = true := by
        rw [← hrr0, hrs]; rfl
      rw [h1, h2]
      simp
    · have hrrest : r ∈ rest := by
        rcases List.mem_cons.mp hr with h | h
        · exact absurd (h ▸ hri) h0
        · exact h
      have := ih hnd.2 ⟨r, hrrest, hri, hrs⟩
      unfold update_article_with_analysis at this
      rw [if_pos hok] at this
      rw [if_neg h0]
      unfold unscored at this ⊢
      rw [List.filter_cons, List.filter_cons]
      by_cases hp : r0.sentiment_score.isNone = true
      · rw [hp]; simp only [if_true]
        simp only [List.length_cons]
        omega
      · rw [Bool.not_eq_true] at hp
        rw [hp]
        simpa using this

/-- A batch of distinct, present, unscored, all-successful items: the ids of
the table are preserved, the backlog shrinks by the batch length, the
success counter advances by the batch length, and what stays unscored was
unscored before and is not in the batch. -/
theorem processBatch_spec (env : AnalysisEnv) :
    ∀ (batch : List BatchItem) (rows : List Row),
      (rows.map Row.id).Nodup →
      (batch.map BatchItem.id).Nodup →
      (∀ a ∈ batch, GoodItem env a) →
      (∀ a ∈ batch, ∃ r ∈ rows, r.id = a.id ∧ r.storage_path = a.storage_path ∧
        r.sentiment_score = none) →
      ((processBatch env batch rows).1.map Row.id = rows.map Row.id) ∧
      ((unscored (processBatch env batch rows).1).length + batch.length =
        (unscored rows).length) ∧
      ((processBatch env batch rows).2 = batch.length) ∧
      (∀ r ∈ unscored (processBatch env batch rows).1,
        r ∈ unscored rows ∧ r.id ∉ batch.map BatchItem.id) := by
  intro batch
  induction batch with
  | nil =>
    intro rows _ _ _ _
    exact ⟨rfl, by simp [processBatch], rfl, fun r hr => ⟨hr, by simp⟩⟩
  | cons a rest ih =>
    intro rows hndr hndb hgood hpresent
    obtain ⟨⟨d, hdec, hdscore⟩, hok⟩ := hgood a (List.mem_cons_self a rest)
    obtain ⟨ra, hra, hraid, hrapath, hras⟩ :=
      hpresent a (List.mem_cons_self a rest)
    rw [List.map_cons, List.nodup_cons] at hndb
    have hstep : processArticle env a rows =
        (update_article_with_analysis env a.id d rows, 1) := by
      rw [processArticle_of_decode, hdec]
    have hunfold : processBatch env (a :: rest) rows =
        (let s2 := processBatch env rest
          (update_article_with_analysis env a.id d rows)
         (s2.1, 1 + s2.2)) := by
      simp only [processBatch, hstep]
    set rows1 := update_article_with_analysis env a.id d rows with hrows1
    have hid1 : rows1.map Row.id = rows.map Row.id := update_map_id env a.id d rows
    have hlen1 : (unscored rows1).length + 1 = (unscored rows).length :=
      unscored_update_length env a.id d hdscore hok rows hndr
        ⟨ra, hra, hraid, hras⟩
    have hmem1 : ∀ r ∈ unscored rows1, r ∈ unscored rows ∧ r.id ≠ a.id :=
      unscored_update_mem env a.id d rows hdscore hok
    -- rows whose id differs from `a.id` survive the update untouched
    have hsurvive : ∀ r ∈ rows, r.id ≠ a.id → r ∈ rows1 := by
      intro r hr hne
      rw [hrows1]
      unfold update_article_with_analysis
      rw [if_pos hok]
      have : (if r.id = a.id then applyAnalysis d r else r) = r := if_neg hne
      exact this ▸ List.mem_map_of_mem _ hr
    have := ih rows1 (hid1 ▸ hndr) hndb.2
      (fun a' ha' => hgood a' (List.mem_cons_of_mem a ha'))
      (by
        intro a' ha'
        obtain ⟨r, hrmem, hrid, hrpath, hrs⟩ :=
          hpresent a' (List.mem_cons_of_mem a ha')
        have hne : r.id ≠ a.id := by
          intro he
          exact hndb.1 (he ▸ hrid ▸ List.mem_map_of_mem BatchItem.id ha')
        exact ⟨r, hsurvive r hrmem hne, hrid, hrpath, hrs⟩)
    obtain ⟨ihid, ihlen, ihcount, ihmem⟩ := this
    rw [hunfold]
    refine ⟨by simpa [hid1] using ihid, ?_, by simp only [List.length_cons]; omega, ?_⟩
    · simp only [List.length_cons]
      omega
    · intro r hr
      obtain ⟨hr1, hrb⟩ := ihmem r hr
      obtain ⟨hr0, hrne⟩ := hmem1 r hr1
      refine ⟨hr0, ?_⟩
      rw [List.map_cons, List.mem_cons, not_or]
      exact ⟨hrne, hrb⟩

theorem ceilBatches_zero (B : ℕ) (hB : 1 ≤ B) : ceilBatches 0 B = 0 := by
  unfold ceilBatches
  exact Nat.div_eq_of_lt (by omega)

/-- One full batch removes `min B n` rows from a backlog of size `n`. -/
theorem ceilBatches_step (n B : ℕ) (hB : 1 ≤ B) (hn : 0 < n) :
    ceilBatches n B = ceilBatches (n - min B n) B + 1 := by
  unfold ceilBatches
  rcases le_or_lt n B with hc | hc
  · have h1 : min B n = n := min_eq_right hc
    rw [h1, Nat.sub_self]
    have h2 : (0 + B - 1) / B = 0 := Nat.div_eq_of_lt (by omega)
    have h3 : n + B - 1 = B * 1 + (n - 1) := by omega
    have h4 : (n - 1) / B = 0 := Nat.div_eq_of_lt (by omega)
    rw [h2, h3, Nat.mul_add_div (by omega), h4]
  · have h1 : min B n = B := min_eq_left (le_of_lt hc)
    rw [h1]
    have h3 : n + B - 1 = (n - B + B - 1) + B := by omega
    rw [h3, Nat.add_div_right _ (by omega)]

theorem batch_map_id (rows : List Row) (B : ℕ) :
    (get_articles_needing_analysis rows B).map BatchItem.id =
      ((unscored rows).map Row.id).take B := by
  unfold get_articles_needing_analysis unscored
  rw [List.map_map, ← List.map_take]
  rfl

theorem batch_eq_nil_iff (rows : List Row) (B : ℕ) (hB : 1 ≤ B) :
    (get_articles_needing_analysis rows B = []) ↔ unscored rows = [] := by
  unfold get_articles_needing_analysis unscored
  rw [List.map_eq_nil_iff, List.take_eq_nil_iff]
  constructor
  · rintro (h | h)
    · omega
    · exact h
  · intro h
    exact Or.inr h

theorem batch_length (rows : List Row) (B : ℕ) :
    (get_articles_needing_analysis rows B).length =
      min B (unscored rows).length := by
  unfold get_articles_needing_analysis unscored
  rw [List.length_map, List.length_take]

/-- Every batch item is the projection of an unscored table row. -/
theorem batch_mem (rows : List Row) (B : ℕ) :
    ∀ a ∈ get_articles_needing_analysis rows B,
      ∃ r ∈ rows, r.id = a.id ∧ r.storage_path = a.storage_path ∧
        r.sentiment_score = none := by
  intro a ha
  unfold get_articles_needing_analysis at ha
  obtain ⟨r, hrt, hmk⟩ := List.mem_map.mp ha
  have hrf := List.mem_of_mem_take hrt
  rw [List.mem_filter] at hrf
  exact ⟨r, hrf.1, by rw [← hmk], by rw [← hmk],
    Option.isNone_iff_eq_none.mp hrf.2⟩

theorem run_succ (env : AnalysisEnv) (B fuel : ℕ) (rows : List Row) :
    run_sentiment_analysis env B (fuel + 1) rows =
      if (get_articles_needing_analysis rows B).isEmpty then
        ⟨rows, 0, 1, true, []⟩
      else
        ⟨(run_sentiment_analysis env B fuel
            (processBatch env (get_articles_needing_analysis rows B) rows).1).rows,
          (processBatch env (get_articles_needing_analysis rows B) rows).2 +
            (run_sentiment_analysis env B fuel
              (processBatch env (get_articles_needing_analysis rows B) rows).1).analyzed,
          (run_sentiment_analysis env B fuel
            (processBatch env (get_articles_needing_analysis rows B) rows).1).iterations + 1,
          (run_sentiment_analysis env B fuel
            (processBatch env (get_articles_needing_analysis rows B) rows).1).terminated,
          (get_articles_needing_analysis rows B).map BatchItem.id ++
            (run_sentiment_analysis env B fuel
              (processBatch env (get_articles_needing_analysis rows B) rows).1).processed⟩ := rfl

/-- Full-run invariant under the all-success hypothesis: with fuel
`ceil(N/B) + 1` the loop reaches the empty-query `break`, performs exactly
`ceil(N/B) + 1` fetch iterations, scores all `N` backlog rows, hands each
backlog row to the inner loop at most once, and leaves an empty backlog. -/
theorem run_spec (env : AnalysisEnv) (B : ℕ) (hB : 1 ≤ B) :
    ∀ (n : ℕ) (rows : List Row),
      (unscored rows).length = n →
      (rows.map Row.id).Nodup →
      (∀ r ∈ rows, r.sentiment_score = none → SucceedsOn env r) →
      ((run_sentiment_analysis env B (ceilBatches n B + 1) rows).terminated
          = true) ∧
      ((run_sentiment_analysis env B (ceilBatches n B + 1) rows).iterations =
        ceilBatches n B + 1) ∧
      ((run_sentiment_analysis env B (ceilBatches n B + 1) rows).analyzed = n) ∧
      (unscored (run_sentiment_analysis env B (ceilBatches n B + 1) rows).rows
          = []) ∧
      ((run_sentiment_analysis env B
          (ceilBatches n B + 1) rows).processed.Nodup) ∧
      (∀ i ∈ (run_sentiment_analysis env B (ceilBatches n B + 1) rows).processed,
        i ∈ (unscored rows).map Row.id) := by
  intro n
  induction n using Nat.strong_induction_on with
  | _ n IH =>
    intro rows hlen hnd hsucc
    by_cases hn : n = 0
    · subst hn
      have hemp : unscored rows = [] := List.length_eq_zero.mp hlen
      have hb : get_articles_needing_analysis rows B = [] :=
        (batch_eq_nil_iff rows B hB).mpr hemp
      rw [ceilBatches_zero B hB, run_succ, hb]
      simp [hemp]
    · -- non-empty backlog: one batch, then recurse
      have hnpos : 0 < n := Nat.pos_of_ne_zero hn
      have hbne : get_articles_needing_analysis rows B ≠ [] := by
        intro h
        have := (batch_eq_nil_iff rows B hB).mp h
        rw [this] at hlen
        exact hn hlen.symm
      have hbatchlen : (get_articles_needing_analysis rows B).length =
          min B n := by rw [batch_length, hlen]
      -- the batch satisfies the hypotheses of `processBatch_spec`
      have hbid : (get_articles_needing_analysis rows B).map BatchItem.id =
          ((unscored rows).map Row.id).take B := batch_map_id rows B
      have hundup : ((unscored rows).map Row.id).Nodup :=
        ((List.filter_sublist rows).map Row.id).nodup hnd
      have hbnd : ((get_articles_needing_analysis rows B).map
          BatchItem.id).Nodup := by
        rw [hbid]
        exact (List.take_sublist B _).nodup hundup
      have hbgood : ∀ a ∈ get_articles_needing_analysis rows B,
          GoodItem env a := by
        intro a ha
        obtain ⟨r, hrm, hrid, hrpath, hrs⟩ := batch_mem rows B a ha
        have := hsucc r hrm hrs
        unfold SucceedsOn at this
        have he : (⟨r.id, r.storage_path⟩ : BatchItem) = a := by
          cases a
          simp_all
        rwa [he] at this
      obtain ⟨hsid, hslen, hscount, hsmem⟩ :=
        processBatch_spec env (get_articles_needing_analysis rows B) rows
          hnd hbnd hbgood (batch_mem rows B)
      set rows1 := (processBatch env
        (get_articles_needing_analysis rows B) rows).1 with hrows1
      have hn1 : (unscored rows1).length = n - min B n := by omega
      have hminpos : 1 ≤ min B n := by omega
      have hstep : ceilBatches n B = ceilBatches (n - min B n) B + 1 :=
        ceilBatches_step n B hB hnpos
      have hsucc1 : ∀ r ∈ rows1, r.sentiment_score = none →
          SucceedsOn env r := by
        intro r hr hrs
        have hru : r ∈ unscored rows1 := by
          unfold unscored
          rw [List.mem_filter, hrs]
          exact ⟨hr, rfl⟩
        have := (hsmem r hru).1
        unfold unscored at this
        rw [List.mem_filter] at this
        exact hsucc r this.1 hrs
      have hih := IH (n - min B n) (by omega) rows1 hn1
        (by rw [hsid]; exact hnd) hsucc1
      obtain ⟨iht, ihiter, ihcount, ihrows, ihnd, ihsub⟩ := hih
      -- unfold one loop iteration
      rw [run_succ]
      rw [if_neg (by simpa [List.isEmpty_iff] using hbne)]
      rw [← hrows1]
      rw [← hstep] at iht ihiter ihcount ihrows ihnd ihsub
      refine ⟨iht, ?_, ?_, ihrows, ?_, ?_⟩
      · rw [ihiter]
      · dsimp only
        rw [hscount, ihcount, hbatchlen]
        omega
      · -- processed ids are pairwise distinct across the whole run
        rw [List.nodup_append]
        refine ⟨hbnd, ihnd, ?_⟩
        intro i hib hirest
        obtain ⟨r, hru1, hri⟩ := List.mem_map.mp (ihsub i hirest)
        exact (hsmem r hru1).2 (hri ▸ hib)
      · intro i hi
        rcases List.mem_append.mp hi with hib | hirest
        · rw [hbid] at hib
          exact List.mem_of_mem_take hib
        · obtain ⟨r, hru1, hri⟩ := List.mem_map.mp (ihsub i hirest)
          exact hri ▸ List.mem_map_of_mem Row.id (hsmem r hru1).1

/-! ## Analysis Phase: concrete environments used as test vectors -/

/-- A scorer that always returns unparseable JSON: the article is skipped
and stays in the backlog. -/
def failEnv : AnalysisEnv where
  download := fun _ => some "text"
  analyze := fun _ => .str "not json"
  parseJSON := fun _ => none
  updateOk := fun _ => true

/-- A scorer that always returns a well-formed in-range record, with every
update succeeding. -/
def okEnv : AnalysisEnv where
  download := fun _ => some "text"
  analyze := fun _ => .dict ⟨false, some (1/2), some 2, some "BBVA"⟩
  parseJSON := fun _ => none
  updateOk := fun _ => true

/-- Concrete two-row backlog. -/
def okRows : List Row :=
  [⟨1, "a", none, none, none⟩, ⟨2, "b", none, none, none⟩]

/-- A scorer returning out-of-range values (`sentiment_score = 2`,
`relevance_score = 5`) in an otherwise well-formed record. -/
def oorEnv : AnalysisEnv where
  download := fun _ => some "text"
  analyze := fun _ => .dict ⟨false, some 2, some 5, none⟩
  parseJSON := fun _ => none
  updateOk := fun _ => true

/-- A well-formed scorer result whose database update raises (and is
swallowed by `update_article_with_analysis`). -/
def failUpdateEnv : AnalysisEnv where
  download := fun _ => some "text"
  analyze := fun _ => .dict ⟨false, some (1/2), some 2, none⟩
  parseJSON := fun _ => none
  updateOk := fun _ => false

/-- A scorer whose return value is neither a string nor a dict. -/
def otherEnv : AnalysisEnv where
  download := fun _ => some "text"
  analyze := fun _ => .other
  parseJSON := fun _ => none
  updateOk := fun _ => true

/-! ## C1 -/

/-- **C1** (counterexample): with one backlog row whose scorer output never
parses and `batch_size = 1`, so `N = 1`, `B = 1` and `ceil(N/B) + 1 = 2`,
the loop is still running after the claimed 2 fetch iterations (the
unparseable article is skipped but stays unscored and is fetched again),
and the same row is handed to the inner loop once per iteration — three
times in three iterations — refuting termination in `ceil(N/B) + 1`
iterations and at-most-once processing. -/
theorem c1_counterexample :
    (unscored [⟨1, "p1", none, none, none⟩]).length = 1 ∧
    ceilBatches 1 1 + 1 = 2 ∧
    (run_sentiment_analysis failEnv 1 2
      [⟨1, "p1", none, none, none⟩]).terminated = false ∧
    (run_sentiment_analysis failEnv 1 3
      [⟨1, "p1", none, none, none⟩]).processed = [1, 1, 1] := by
  decide

/-- **C1** (amended): provided every backlog row processes successfully end
to end — its text downloads, the scorer output decodes without the error
marker and carries a `sentiment_score`, and the row update does not raise —
a run with backlog `N` and `batch_size = B ≥ 1` reaches the empty-query
`break` within `ceil(N/B) + 1` fetch iterations (exactly that many),
scores all `N` rows, hands each backlog row to the inner loop at most
once, and exits with the unscored-article query empty. -/
theorem c1_amended (env : AnalysisEnv) (rows : List Row) (B : ℕ)
    (hB : 1 ≤ B)
    (hids : (rows.map Row.id).Nodup)
    (hsucc : ∀ r ∈ rows, r.sentiment_score = none → SucceedsOn env r) :
    ((run_sentiment_analysis env B
        (ceilBatches (unscored rows).length B + 1) rows).terminated = true) ∧
    ((run_sentiment_analysis env B
        (ceilBatches (unscored rows).length B + 1) rows).iterations =
      ceilBatches (unscored rows).length B + 1) ∧
    ((run_sentiment_analysis env B
        (ceilBatches (unscored rows).length B + 1) rows).analyzed =
      (unscored rows).length) ∧
    (unscored (run_sentiment_analysis env B
        (ceilBatches (unscored rows).length B + 1) rows).rows = []) ∧
    ((run_sentiment_analysis env B
        (ceilBatches (unscored rows).length B + 1) rows).processed.Nodup) :=
  have h := run_spec env B hB (unscored rows).length rows rfl hids hsucc
  ⟨h.1, h.2.1, h.2.2.1, h.2.2.2.1, h.2.2.2.2.1⟩

/-- **C1** (witness): the amended theorem applied to a concrete two-row
all-success backlog with `batch_size = 1`. -/
theorem c1_amended_witness :
    ((run_sentiment_analysis okEnv 1
        (ceilBatches (unscored okRows).length 1 + 1) okRows).terminated
      = true) ∧
    ((run_sentiment_analysis okEnv 1
        (ceilBatches (unscored okRows).length 1 + 1) okRows).analyzed =
      (unscored okRows).length) :=
  have h := c1_amended okEnv okRows 1 (by decide) (by decide)
    (fun r _ _ => ⟨⟨⟨false, some (1/2), some 2, some "BBVA"⟩, rfl, rfl⟩, rfl⟩)
  ⟨h.1, h.2.2.1⟩

/-! ## C2 -/

/-- **C2** (counterexample): a parsed record with `relevance_score = 5`
(outside `{1,2,3}`) and `sentiment_score = 2` (outside `[-1, 1]`) and no
error marker is not rejected: the article is counted as analyzed and the
out-of-range values are written onto the stored row unchanged. -/
theorem c2_counterexample :
    (¬ ((5 : ℤ) = 1 ∨ (5 : ℤ) = 2 ∨ (5 : ℤ) = 3)) ∧
    (¬ ((-1 : ℚ) ≤ 2 ∧ (2 : ℚ) ≤ 1)) ∧
    processArticle oorEnv ⟨1, "p"⟩ [⟨1, "p", none, none, none⟩] =
      ([⟨1, "p", some 2, some 5, none⟩], 1) := by
  decide

/-- **C2** (amended): the Analysis Phase performs no range validation at
all.  Any parsed record whose `hasError` flag is unset is accepted — the
success counter advances and the row update is issued with the record as
received — and the update writes whatever `sentiment_score` and
`relevance_score` values the record carries, verbatim, with no clamping. -/
theorem c2_amended (env : AnalysisEnv) (a : BatchItem) (rows : List Row)
    (t : String) (d : AnalysisData)
    (hdl : env.download a.storage_path = some t)
    (hout : env.analyze t = .dict d)
    (herr : d.hasError = false) :
    processArticle env a rows =
      (update_article_with_analysis env a.id d rows, 1) ∧
    (∀ r : Row,
      (d.sentiment_score.isSome →
        (applyAnalysis d r).sentiment_score = d.sentiment_score) ∧
      (d.relevance_score.isSome →
        (applyAnalysis d r).relevance_score = d.relevance_score)) := by
  constructor
  · rw [processArticle_of_decode]
    have hd : decodeOutcome env a.storage_path = some d := by
      unfold decodeOutcome
      rw [hdl]
      simp [hout, herr]
    rw [hd]
  · intro r
    constructor
    · intro h
      obtain ⟨v, hv⟩ := Option.isSome_iff_exists.mp h
      simp [applyAnalysis, hv, setCol]
    · intro h
      obtain ⟨v, hv⟩ := Option.isSome_iff_exists.mp h
      simp [applyAnalysis, hv, setCol]

/-- **C2** (witness): the amended theorem at the out-of-range record. -/
theorem c2_amended_witness :
    processArticle oorEnv ⟨1, "p"⟩ [⟨1, "p", none, none, none⟩] =
      (update_article_with_analysis oorEnv 1 ⟨false, some 2, some 5, none⟩
        [⟨1, "p", none, none, none⟩], 1) :=
  (c2_amended oorEnv ⟨1, "p"⟩ [⟨1, "p", none, none, none⟩] "text"
    ⟨false, some 2, some 5, none⟩ rfl rfl rfl).1

/-! ## C9 -/

/-- An article the orchestrator accepts: its decode pipeline reaches the
update step.  This depends only on the download, the scorer and the JSON
decoding — not on the database update. -/
def accepted (env : AnalysisEnv) (a : BatchItem) : Bool :=
  (decodeOutcome env a.storage_path).isSome

theorem processArticle_count (env : AnalysisEnv) (a : BatchItem)
    (rows : List Row) :
    (processArticle env a rows).2 = if accepted env a then 1 else 0 := by
  rw [processArticle_of_decode]
  unfold accepted
  cases decodeOutcome env a.storage_path <;> simp

theorem processBatch_count (env : AnalysisEnv) :
    ∀ (batch : List BatchItem) (rows : List Row),
      (processBatch env batch rows).2 =
        (batch.filter (accepted env)).length := by
  intro batch
  induction batch with
  | nil => intro rows; rfl
  | cons a rest ih =>
    intro rows
    show (processArticle env a rows).2 +
        (processBatch env rest (processArticle env a rows).1).2 =
      ((a :: rest).filter (accepted env)).length
    rw [processArticle_count, ih, List.filter_cons]
    by_cases h : accepted env a <;> simp [h, Nat.add_comm]

/-- **C9**: the success counter counts accepted scorer results only: for
any override of the update-success oracle the batch counter equals the
number of items whose decode pipeline passes the error-marker check, so it
is insensitive to whether `update_article_with_analysis` succeeds (every
exception there is swallowed).  Concretely, a batch of one accepted
article whose row update raises yields counter 1 with zero rows written —
the reported count exceeds the rows actually updated. -/
theorem c9_counter_counts_accepted :
    (∀ (env : AnalysisEnv) (u : ℕ → Bool) (batch : List BatchItem)
        (rows : List Row),
      (processBatch { env with updateOk := u } batch rows).2 =
        (batch.filter (accepted env)).length) ∧
    (processBatch failUpdateEnv [⟨1, "p"⟩] [⟨1, "p", none, none, none⟩] =
      ([⟨1, "p", none, none, none⟩], 1)) := by
  constructor
  · intro env u batch rows
    rw [processBatch_count]
    rfl
  · decide

/-! ## C10 -/

/-- An update with the empty record changes nothing on any row. -/
theorem applyAnalysis_empty (r : Row) : applyAnalysis emptyData r = r := rfl

theorem update_empty (env : AnalysisEnv) (i : ℕ) (rows : List Row) :
    update_article_with_analysis env i emptyData rows = rows := by
  unfold update_article_with_analysis
  split
  · have h : ∀ r : Row,
        (if r.id = i then applyAnalysis emptyData r else r) = r := by
      intro r
      rw [applyAnalysis_empty, ite_self]
    simp only [h, List.map_id_fun']
    rfl
  · rfl

/-- **C10**: a scorer output that is neither a string nor a dict leaves
`analysis_data = {}`; the empty dict carries no error marker, so the
orchestrator issues the row update with the empty record, counts the
article as analyzed, and the table — in particular the row's null
`sentiment_score` — is unchanged, keeping the article in the backlog. -/
theorem c10_other_output_counted (env : AnalysisEnv) (a : BatchItem)
    (rows : List Row) (t : String)
    (hdl : env.download a.storage_path = some t)
    (hother : env.analyze t = .other) :
    processArticle env a rows =
      (update_article_with_analysis env a.id emptyData rows, 1) ∧
    update_article_with_analysis env a.id emptyData rows = rows ∧
    (∀ B : ℕ, get_articles_needing_analysis (processArticle env a rows).1 B =
      get_articles_needing_analysis rows B) := by
  have h1 : processArticle env a rows =
      (update_article_with_analysis env a.id emptyData rows, 1) := by
    rw [processArticle_of_decode]
    have hd : decodeOutcome env a.storage_path = some emptyData := by
      unfold decodeOutcome
      rw [hdl]
      simp [hother, emptyData]
    rw [hd]
  refine ⟨h1, update_empty env a.id rows, ?_⟩
  intro B
  rw [h1, update_empty env a.id rows]

/-- **C10** (witness): concrete instance of the non-string, non-dict
scorer output. -/
theorem c10_other_output_counted_witness :
    processArticle otherEnv ⟨1, "p"⟩ [⟨1, "p", none, none, none⟩] =
      (update_article_with_analysis otherEnv 1 emptyData
        [⟨1, "p", none, none, none⟩], 1) :=
  (c10_other_output_counted otherEnv ⟨1, "p"⟩ [⟨1, "p", none, none, none⟩]
    "text" rfl rfl).1

/-! ## Collection Phase: data model (orchestrator.py:26-57,
supabase_handler.py:25-72, news_agent.py) -/

/-- One entry of `agent.fetch_rss_links()`: title, url, source name and the
ISO-rendered publication timestamp. -/
structure LinkData where
  title : String
  url : String
  source : String
  published_at : String
  deriving DecidableEq

/-- A persisted `news_articles` metadata row as created by the Collection
Phase (analysis fields still null, hence omitted here). -/
structure MetaRow where
  id : ℕ
  title : String
  url : String
  source : String
  published_at : String
  storage_path : String
  deriving DecidableEq

/-- Durable state the Collection Phase mutates: the set of blob paths in
the storage bucket, the metadata table, and the server's id counter. -/
structure CollectState where
  storage : List String
  table : List MetaRow
  nextId : ℕ
  deriving DecidableEq

/-- Failure injection for the store: `uploadErr path = some msg` means the
storage SDK raises with message `msg` when writing a fresh `path`;
`insertErr url = true` means the table INSERT raises a non-duplicate
error for that url. -/
structure StoreEnv where
  uploadErr : String → Option String
  insertErr : String → Bool

/-- Character-list search behind Python's `needle in haystack`. -/
def subSearch (n : List Char) : List Char → Bool
  | [] => n.isEmpty
  | c :: t => n.isPrefixOf (c :: t) || subSearch n t

/-- Python's substring containment test `needle in hay`. -/
def containsSub (hay needle : String) : Bool :=
  subSearch needle.data hay.data

/-- The duplicate test of `upload_article_text`:
`"Duplicate" in error_str or "409" in error_str`. -/
def dupMarker (e : String) : Bool :=
  containsSub e "Duplicate" || containsSub e "409"

/-- Outcome of `supabase.storage.upload`. -/
inductive UploadResult
  | ok (path : String)
  | err (msg : String)
  deriving DecidableEq

/-- The storage backend: uploading an existing path raises the 409
duplicate error; a fresh path either raises the injected error or is
stored. -/
def storageUpload (env : StoreEnv) (storage : List String) (path : String) :
    UploadResult × List String :=
  if path ∈ storage then (.err "409 Duplicate", storage)
  else
    match env.uploadErr path with
    | some msg => (.err msg, storage)
    | none => (.ok path, path :: storage)

/-- `upload_article_text(article_id, text_content)`
(src/core/supabase_handler.py:25-51): builds `f"{article_id}.txt"`,
uploads, and on an exception whose message contains `"Duplicate"` or
`"409"` treats the write as a success and still returns the path; any
other exception yields `None`. -/
def upload_article_text (env : StoreEnv) (storage : List String)
    (article_id _text_content : String) : Option String × List String :=
  let file_path := article_id ++ ".txt"
  match storageUpload env storage file_path with
  | (.ok _, st) => (some file_path, st)
  | (.err e, st) =>
    if dupMarker e then (some file_path, st) else (none, st)

/-- `insert_article_metadata(metadata, storage_path)`
(src/core/supabase_handler.py:53-72): INSERT returning the new surrogate
id; a uniqueness violation on `url` or any other exception is caught and
yields `None` with the table unchanged. -/
def insert_article_metadata (env : StoreEnv) (st : CollectState)
    (metadata : LinkData) (storage_path : String) :
    Option ℕ × CollectState :=
  if metadata.url ∈ st.table.map MetaRow.url then (none, st)
  else if env.insertErr metadata.url then (none, st)
  else
    (some st.nextId,
      { st with
        table := st.table ++
          [⟨st.nextId, metadata.title, metadata.url, metadata.source,
            metadata.published_at, storage_path⟩]
        nextId := st.nextId + 1 })

/-- Environment of one collection run: the (deterministic) article-text
fetch `agent.get_article_content`, the URL hash
`hashlib.sha256(url).hexdigest()` (any deterministic function of the url),
and the store failure injection. -/
structure CollectEnv where
  store : StoreEnv
  content : String → Option String
  hashUrl : String → String

/-- Body of the `for link_data in article_links` loop
(src/core/orchestrator.py:35-55): fetch text (skip on `None`), upload the
blob under the url hash, and insert the metadata row; returns the new
state and whether `total_inserted` advanced. -/
def collectStep (env : CollectEnv) (st : CollectState) (link : LinkData) :
    CollectState × Bool :=
  match env.content link.url with
  | none => (st, false)
  | some text =>
    let file_id := env.hashUrl link.url
    let up := upload_article_text env.store st.storage file_id text
    let st1 : CollectState := { st with storage := up.2 }
    match up.1 with
    | none => (st1, false)
    | some path =>
      match insert_article_metadata env.store st1 link path with
      | (some _, st2) => (st2, true)
      | (none, st2) => (st2, false)

/-- `run_data_collection` (src/core/orchestrator.py:26-57) over the link
list returned by `agent.fetch_rss_links()`: fold of `collectStep`,
returning the final state and `total_inserted`. -/
def run_data_collection (env : CollectEnv) (links : List LinkData)
    (st : CollectState) : CollectState × ℕ :=
  match links with
  | [] => (st, 0)
  | l :: rest =>
    let s1 := collectStep env st l
    let s2 := run_data_collection env rest s1.1
    (s2.1, (if s1.2 then 1 else 0) + s2.2)

/-! ## Collection Phase: case lemmas for the store operations -/

theorem upload_dup (env : StoreEnv) (storage : List String)
    (i t : String) (h : i ++ ".txt" ∈ storage) :
    upload_article_text env storage i t = (some (i ++ ".txt"), storage) := by
  simp only [upload_article_text, storageUpload]
  rw [if_pos h]
  simp [dupMarker, containsSub, subSearch]

theorem upload_fresh (env : StoreEnv) (storage : List String) (i t : String)
    (h : i ++ ".txt" ∉ storage) (he : env.uploadErr (i ++ ".txt") = none) :
    upload_article_text env storage i t =
      (some (i ++ ".txt"), (i ++ ".txt") :: storage) := by
  simp only [upload_article_text, storageUpload]
  rw [if_neg h, he]

theorem upload_err_marker (env : StoreEnv) (storage : List String)
    (i t msg : String) (h : i ++ ".txt" ∉ storage)
    (he : env.uploadErr (i ++ ".txt") = some msg)
    (hm : dupMarker msg = true) :
    upload_article_text env storage i t = (some (i ++ ".txt"), storage) := by
  simp only [upload_article_text, storageUpload]
  rw [if_neg h, he]
  simp [hm]

theorem upload_err_other (env : StoreEnv) (storage : List String)
    (i t msg : String) (h : i ++ ".txt" ∉ storage)
    (he : env.uploadErr (i ++ ".txt") = some msg)
    (hm : dupMarker msg = false) :
    upload_article_text env storage i t = (none, storage) := by
  simp only [upload_article_text, storageUpload]
  rw [if_neg h, he]
  simp [hm]

theorem insert_dup_url (env : StoreEnv) (st : CollectState) (m : LinkData)
    (p : String) (h : m.url ∈ st.table.map MetaRow.url) :
    insert_article_metadata env st m p = (none, st) := by
  unfold insert_article_metadata
  rw [if_pos h]

theorem insert_err (env : StoreEnv) (st : CollectState) (m : LinkData)
    (p : String) (h : m.url ∉ st.table.map MetaRow.url)
    (he : env.insertErr m.url = true) :
    insert_article_metadata env st m p = (none, st) := by
  unfold insert_article_metadata
  rw [if_neg h, if_pos he]

theorem insert_new (env : StoreEnv) (st : CollectState) (m : LinkData)
    (p : String) (h : m.url ∉ st.table.map MetaRow.url)
    (he : env.insertErr m.url = false) :
    insert_article_metadata env st m p =
      (some st.nextId,
        { st with
          table := st.table ++ [⟨st.nextId, m.title, m.url, m.source,
            m.published_at, p⟩]
          nextId := st.nextId + 1 }) := by
  unfold insert_article_metadata
  rw [if_neg h, if_neg (by simp [he])]

/-! ## Collection Phase: idempotence invariant -/

/-- A link the store already accounts for: re-processing it is a no-op.
Either its text never fetches; or its blob upload reports success without
touching storage (the path is present, or the injected upload error carries
the duplicate marker) while the metadata insert is refused (url already in
the table, or the insert raises); or its upload fails outright with a
non-duplicate error. -/
def Handled (env : CollectEnv) (st : CollectState) (l : LinkData) : Prop :=
  env.content l.url = none ∨
  ((env.hashUrl l.url ++ ".txt" ∈ st.storage ∨
      (env.store.uploadErr (env.hashUrl l.url ++ ".txt")).isSome = true) ∧
    (l.url ∈ st.table.map MetaRow.url ∨ env.store.insertErr l.url = true ∨
      (env.hashUrl l.url ++ ".txt" ∉ st.storage ∧
        ∃ msg, env.store.uploadErr (env.hashUrl l.url ++ ".txt") = some msg ∧
          dupMarker msg = false)))

/-- Re-processing a handled link is exactly a no-op with no insertion. -/
theorem collectStep_of_handled (env : CollectEnv) (st : CollectState)
    (l : LinkData) (h : Handled env st l) :
    collectStep env st l = (st, false) := by
  rcases h with h | ⟨hA, hB⟩
  · simp [collectStep, h]
  · cases hc : env.content l.url with
    | none => simp [collectStep, hc]
    | some text =>
      by_cases hp : env.hashUrl l.url ++ ".txt" ∈ st.storage
      · have hup := upload_dup env.store st.storage (env.hashUrl l.url) text hp
        rcases hB with hB | hB | hB
        · simp [collectStep, hc, hup, insert_article_metadata, hB]
        · simp [collectStep, hc, hup, insert_article_metadata, hB]
        · exact absurd hp hB.1
      · have hA' : (env.store.uploadErr (env.hashUrl l.url ++ ".txt")).isSome
            = true := by
          rcases hA with hA | hA
          · exact absurd hA hp
          · exact hA
        obtain ⟨msg, hmsg⟩ := Option.isSome_iff_exists.mp hA'
        by_cases hm : dupMarker msg = true
        · have hup := upload_err_marker env.store st.storage
            (env.hashUrl l.url) text msg hp hmsg hm
          rcases hB with hB | hB | hB
          · simp [collectStep, hc, hup, insert_article_metadata, hB]
          · simp [collectStep, hc, hup, insert_article_metadata, hB]
          · obtain ⟨-, msg2, hmsg2, hm2⟩ := hB
            rw [hmsg] at hmsg2
            cases hmsg2
            rw [hm] at hm2
            cases hm2
        · have hup := upload_err_other env.store st.storage
            (env.hashUrl l.url) text msg hp hmsg (by simpa using hm)
          simp [collectStep, hc, hup]

/-- Reduction of the insert-result match in `collectStep`. -/
theorem insertCase_eq (pr : Option ℕ × CollectState) :
    (match pr with
      | (some _, st2) => (st2, true)
      | (none, st2) => (st2, false)) = (pr.2, pr.1.isSome) := by
  rcases pr with ⟨o, s⟩
  cases o <;> rfl

/-- The three observable outcomes of `upload_article_text`. -/
theorem upload_cases (env : StoreEnv) (storage : List String) (i t : String) :
    (upload_article_text env storage i t = (some (i ++ ".txt"), storage)) ∨
    (upload_article_text env storage i t =
        (some (i ++ ".txt"), (i ++ ".txt") :: storage) ∧
      env.uploadErr (i ++ ".txt") = none ∧ (i ++ ".txt") ∉ storage) ∨
    (upload_article_text env storage i t = (none, storage)) := by
  by_cases hp : i ++ ".txt" ∈ storage
  · exact Or.inl (upload_dup env storage i t hp)
  · cases hue : env.uploadErr (i ++ ".txt") with
    | none =>
      exact Or.inr (Or.inl ⟨upload_fresh env storage i t hp hue, rfl, hp⟩)
    | some msg =>
      by_cases hm : dupMarker msg = true
      · exact Or.inl (upload_err_marker env storage i t msg hp hue hm)
      · exact Or.inr (Or.inr
          (upload_err_other env storage i t msg hp hue (by simpa using hm)))

/-- The insert keeps the blob set and only appends to the table. -/
theorem insert_state (env : StoreEnv) (st : CollectState) (m : LinkData)
    (p : String) :
    ((insert_article_metadata env st m p).2.storage = st.storage) ∧
    (∃ suffix, (insert_article_metadata env st m p).2.table =
      st.table ++ suffix) := by
  unfold insert_article_metadata
  by_cases hu : m.url ∈ st.table.map MetaRow.url
  · exact ⟨by simp [hu], ⟨[], by simp [hu]⟩⟩
  · by_cases hie : env.insertErr m.url = true
    · exact ⟨by simp [hu, hie], ⟨[], by simp [hu, hie]⟩⟩
    · exact ⟨by simp [hu, hie], ⟨[⟨st.nextId, m.title, m.url, m.source,
        m.published_at, p⟩], by simp [hu, hie]⟩⟩

/-- One collection step only grows the blob set and the url set, and every
blob it adds has no injected upload error. -/
theorem collectStep_mono (env : CollectEnv) (st : CollectState)
    (l : LinkData) :
    (∀ p ∈ st.storage, p ∈ (collectStep env st l).1.storage) ∧
    (∀ u ∈ st.table.map MetaRow.url,
      u ∈ (collectStep env st l).1.table.map MetaRow.url) ∧
    (∀ p ∈ (collectStep env st l).1.storage,
      p ∈ st.storage ∨ env.store.uploadErr p = none) := by
  cases hc : env.content l.url with
  | none =>
    refine ⟨by simp [collectStep, hc], by simp [collectStep, hc], ?_⟩
    simp only [collectStep, hc]
    exact fun p hp => Or.inl hp
  | some text =>
    rcases upload_cases env.store st.storage (env.hashUrl l.url) text with
      hup | ⟨hup, hue, -⟩ | hup
    · obtain ⟨hst, suffix, htab⟩ := insert_state env.store
        ⟨st.storage, st.table, st.nextId⟩ l (env.hashUrl l.url ++ ".txt")
      refine ⟨?_, ?_, ?_⟩ <;>
        simp only [collectStep, hc, hup, insertCase_eq] <;>
        simp only [hst, htab]
      · exact fun p hp => hp
      · intro u hu
        rw [List.map_append, List.mem_append]
        exact Or.inl hu
      · exact fun p hp => Or.inl hp
    · obtain ⟨hst, suffix, htab⟩ := insert_state env.store
        ⟨(env.hashUrl l.url ++ ".txt") :: st.storage, st.table, st.nextId⟩ l
        (env.hashUrl l.url ++ ".txt")
      refine ⟨?_, ?_, ?_⟩ <;>
        simp only [collectStep, hc, hup, insertCase_eq] <;>
        simp only [hst, htab]
      · exact fun p hp => List.mem_cons_of_mem _ hp
      · intro u hu
        rw [List.map_append, List.mem_append]
        exact Or.inl hu
      · intro p hp
        rcases List.mem_cons.mp hp with h | h
        · exact Or.inr (h ▸ hue)
        · exact Or.inl h
    · refine ⟨?_, ?_, ?_⟩ <;> simp only [collectStep, hc, hup]
      · exact fun p hp => hp
      · exact fun u hu => hu
      · exact fun p hp => Or.inl hp

/-- After an insert attempt the url is accounted for: present in the table
or refused by the injected insert error. -/
theorem insert_establishes (env : StoreEnv) (st1 : CollectState)
    (l : LinkData) (p : String) :
    l.url ∈ (insert_article_metadata env st1 l p).2.table.map MetaRow.url ∨
      env.insertErr l.url = true := by
  unfold insert_article_metadata
  by_cases hu : l.url ∈ st1.table.map MetaRow.url
  · left
    simp [hu]
  · by_cases hie : env.insertErr l.url = true
    · exact Or.inr hie
    · left
      simp [hu, hie]

/-- Processing a link leaves it handled. -/
theorem collectStep_establishes (env : CollectEnv) (st : CollectState)
    (l : LinkData) : Handled env (collectStep env st l).1 l := by
  cases hc : env.content l.url with
  | none => exact Or.inl hc
  | some text =>
    right
    by_cases hp : env.hashUrl l.url ++ ".txt" ∈ st.storage
    · have hup := upload_dup env.store st.storage (env.hashUrl l.url) text hp
      refine ⟨Or.inl ((collectStep_mono env st l).1 _ hp), ?_⟩
      simp only [collectStep, hc, hup, insertCase_eq]
      rcases insert_establishes env.store ⟨st.storage, st.table, st.nextId⟩ l
        (env.hashUrl l.url ++ ".txt") with h | h
      · exact Or.inl h
      · exact Or.inr (Or.inl h)
    · cases hue : env.store.uploadErr (env.hashUrl l.url ++ ".txt") with
      | none =>
        have hup := upload_fresh env.store st.storage (env.hashUrl l.url)
          text hp hue
        constructor
        · left
          simp only [collectStep, hc, hup, insertCase_eq]
          rw [(insert_state env.store
            ⟨(env.hashUrl l.url ++ ".txt") :: st.storage, st.table,
              st.nextId⟩ l (env.hashUrl l.url ++ ".txt")).1]
          exact List.mem_cons_self _ _
        · simp only [collectStep, hc, hup, insertCase_eq]
          rcases insert_establishes env.store
            ⟨(env.hashUrl l.url ++ ".txt") :: st.storage, st.table,
              st.nextId⟩ l (env.hashUrl l.url ++ ".txt") with h | h
          · exact Or.inl h
          · exact Or.inr (Or.inl h)
      | some msg =>
        by_cases hm : dupMarker msg = true
        · have hup := upload_err_marker env.store st.storage
            (env.hashUrl l.url) text msg hp hue hm
          constructor
          · exact Or.inr rfl
          · simp only [collectStep, hc, hup, insertCase_eq]
            rcases insert_establishes env.store
              ⟨st.storage, st.table, st.nextId⟩ l
              (env.hashUrl l.url ++ ".txt") with h | h
            · exact Or.inl h
            · exact Or.inr (Or.inl h)
        · have hup := upload_err_other env.store st.storage
            (env.hashUrl l.url) text msg hp hue (by simpa using hm)
          constructor
          · exact Or.inr rfl
          · right; right
            refine ⟨?_, msg, rfl, by simpa using hm⟩
            simp only [collectStep, hc, hup]
            exact hp

/-- Handledness is stable under processing any other link. -/
theorem handled_mono (env : CollectEnv) (st : CollectState)
    (l l2 : LinkData) (h : Handled env st l) :
    Handled env (collectStep env st l2).1 l := by
  rcases h with h | ⟨hA, hB⟩
  · exact Or.inl h
  · obtain ⟨m1, m2, m3⟩ := collectStep_mono env st l2
    right
    refine ⟨?_, ?_⟩
    · rcases hA with hA | hA
      · exact Or.inl (m1 _ hA)
      · exact Or.inr hA
    · rcases hB with hB | hB | ⟨hnp, msg, hmsg, hm⟩
      · exact Or.inl (m2 _ hB)
      · exact Or.inr (Or.inl hB)
      · refine Or.inr (Or.inr ⟨?_, msg, hmsg, hm⟩)
        intro hmem
        rcases m3 _ hmem with h | h
        · exact hnp h
        · rw [hmsg] at h
          cases h

theorem run_preserves_handled (env : CollectEnv) :
    ∀ (links : List LinkData) (st : CollectState) (l : LinkData),
      Handled env st l →
      Handled env (run_data_collection env links st).1 l := by
  intro links
  induction links with
  | nil => exact fun st l h => h
  | cons l2 rest ih =>
    intro st l h
    exact ih (collectStep env st l2).1 l (handled_mono env st l l2 h)

theorem run_establishes_handled (env : CollectEnv) :
    ∀ (links : List LinkData) (st : CollectState),
      ∀ l ∈ links, Handled env (run_data_collection env links st).1 l := by
  intro links
  induction links with
  | nil =>
    intro st l h
    exact absurd h (List.not_mem_nil l)
  | cons l2 rest ih =>
    intro st l hl
    rcases List.mem_cons.mp hl with h | h
    · subst h
      exact run_preserves_handled env rest (collectStep env st l).1 l
        (collectStep_establishes env st l)
    · exact ih (collectStep env st l2).1 l h

/-- A run over handled links does nothing and inserts nothing. -/
theorem run_of_handled (env : CollectEnv) :
    ∀ (links : List LinkData) (st : CollectState),
      (∀ l ∈ links, Handled env st l) →
      run_data_collection env links st = (st, 0) := by
  intro links
  induction links with
  | nil => exact fun st _ => rfl
  | cons l2 rest ih =>
    intro st h
    have hstep := collectStep_of_handled env st l2
      (h l2 (List.mem_cons_self l2 rest))
    show ((run_data_collection env rest (collectStep env st l2).1).1,
      (if (collectStep env st l2).2 then 1 else 0) +
        (run_data_collection env rest (collectStep env st l2).1).2) = (st, 0)
    rw [hstep]
    have hrest := ih st (fun l hl => h l (List.mem_cons_of_mem l2 hl))
    simp [hrest]

/-- The insert extends the table by one row exactly when it returns an id. -/
theorem insert_len (env : StoreEnv) (st1 : CollectState) (m : LinkData)
    (p : String) :
    (insert_article_metadata env st1 m p).2.table.length =
      st1.table.length +
        (if ((insert_article_metadata env st1 m p).1).isSome then 1
          else 0) := by
  unfold insert_article_metadata
  by_cases hu : m.url ∈ st1.table.map MetaRow.url
  · simp [hu]
  · by_cases hie : env.insertErr m.url = true
    · simp [hu, hie]
    · simp [hu, hie]

/-- The inserted-flag of one step accounts exactly for the table growth. -/
theorem collectStep_tableLen (env : CollectEnv) (st : CollectState)
    (l : LinkData) :
    (collectStep env st l).1.table.length =
      st.table.length + (if (collectStep env st l).2 then 1 else 0) := by
  cases hc : env.content l.url with
  | none => simp [collectStep, hc]
  | some text =>
    rcases upload_cases env.store st.storage (env.hashUrl l.url) text with
      hup | ⟨hup, -, -⟩ | hup
    · simp only [collectStep, hc, hup, insertCase_eq]
      exact insert_len env.store ⟨st.storage, st.table, st.nextId⟩ l
        (env.hashUrl l.url ++ ".txt")
    · simp only [collectStep, hc, hup, insertCase_eq]
      exact insert_len env.store
        ⟨(env.hashUrl l.url ++ ".txt") :: st.storage, st.table, st.nextId⟩ l
        (env.hashUrl l.url ++ ".txt")
    · simp [collectStep, hc, hup]

/-- `total_inserted` equals the number of metadata rows the run added. -/
theorem run_count (env : CollectEnv) :
    ∀ (links : List LinkData) (st : CollectState),
      (run_data_collection env links st).1.table.length =
        st.table.length + (run_data_collection env links st).2 := by
  intro links
  induction links with
  | nil => intro st; simp [run_data_collection]
  | cons l rest ih =>
    intro st
    have h1 := collectStep_tableLen env st l
    have h2 := ih (collectStep env st l).1
    show (run_data_collection env rest (collectStep env st l).1).1.table.length
      = st.table.length + ((if (collectStep env st l).2 then 1 else 0) +
        (run_data_collection env rest (collectStep env st l).1).2)
    rw [h2, h1]
    cases hfl : (collectStep env st l).2 <;> (simp [hfl]; try omega)

/-- Two links with the same url in one feed: the first is inserted, the
second hits the duplicate blob (409, treated as success) and then the url
uniqueness constraint (benign skip), leaving exactly one row. -/
theorem collect_dup_url (env : CollectEnv) (st : CollectState)
    (l1 l2 : LinkData) (text : String) (hurl : l1.url = l2.url)
    (hc : env.content l1.url = some text)
    (hfresh : env.hashUrl l1.url ++ ".txt" ∉ st.storage)
    (hue : env.store.uploadErr (env.hashUrl l1.url ++ ".txt") = none)
    (hie : env.store.insertErr l1.url = false)
    (hnu : l1.url ∉ st.table.map MetaRow.url) :
    run_data_collection env [l1, l2] st =
      (⟨(env.hashUrl l1.url ++ ".txt") :: st.storage,
        st.table ++ [⟨st.nextId, l1.title, l1.url, l1.source,
          l1.published_at, env.hashUrl l1.url ++ ".txt"⟩],
        st.nextId + 1⟩, 1) ∧
    ((run_data_collection env [l1, l2] st).1.table.filter
      (fun r => r.url == l1.url)).length = 1 := by
  have hup1 := upload_fresh env.store st.storage (env.hashUrl l1.url)
    text hfresh hue
  have hins1 := insert_new env.store
    ⟨(env.hashUrl l1.url ++ ".txt") :: st.storage, st.table, st.nextId⟩ l1
    (env.hashUrl l1.url ++ ".txt") hnu hie
  have hstep1 : collectStep env st l1 =
      (⟨(env.hashUrl l1.url ++ ".txt") :: st.storage,
        st.table ++ [⟨st.nextId, l1.title, l1.url, l1.source,
          l1.published_at, env.hashUrl l1.url ++ ".txt"⟩],
        st.nextId + 1⟩, true) := by
    simp only [collectStep, hc, hup1, insertCase_eq, hins1]
    try rfl
  have hc2 : env.content l2.url = some text := by rw [← hurl]; exact hc
  have hmem2 : env.hashUrl l2.url ++ ".txt" ∈
      (env.hashUrl l1.url ++ ".txt") :: st.storage := by
    rw [← hurl]
    exact List.mem_cons_self _ _
  have hup2 := upload_dup env.store
    ((env.hashUrl l1.url ++ ".txt") :: st.storage) (env.hashUrl l2.url)
    text hmem2
  have hdup2 : l2.url ∈ (st.table ++ [(⟨st.nextId, l1.title, l1.url,
      l1.source, l1.published_at, env.hashUrl l1.url ++ ".txt"⟩ :
        MetaRow)]).map MetaRow.url := by
    rw [List.map_append, List.mem_append]
    right
    rw [← hurl]
    exact List.mem_singleton.mpr rfl
  have hins2 := insert_dup_url env.store
    ⟨(env.hashUrl l1.url ++ ".txt") :: st.storage,
      st.table ++ [⟨st.nextId, l1.title, l1.url, l1.source,
        l1.published_at, env.hashUrl l1.url ++ ".txt"⟩],
      st.nextId + 1⟩ l2 (env.hashUrl l2.url ++ ".txt") hdup2
  have hstep2 : collectStep env
      ⟨(env.hashUrl l1.url ++ ".txt") :: st.storage,
        st.table ++ [⟨st.nextId, l1.title, l1.url, l1.source,
          l1.published_at, env.hashUrl l1.url ++ ".txt"⟩],
        st.nextId + 1⟩ l2 =
      (⟨(env.hashUrl l1.url ++ ".txt") :: st.storage,
        st.table ++ [⟨st.nextId, l1.title, l1.url, l1.source,
          l1.published_at, env.hashUrl l1.url ++ ".txt"⟩],
        st.nextId + 1⟩, false) := by
    simp only [collectStep, hc2, hup2, insertCase_eq, hins2]
    try rfl
  have hrun : run_data_collection env [l1, l2] st =
      (⟨(env.hashUrl l1.url ++ ".txt") :: st.storage,
        st.table ++ [⟨st.nextId, l1.title, l1.url, l1.source,
          l1.published_at, env.hashUrl l1.url ++ ".txt"⟩],
        st.nextId + 1⟩, 1) := by
    simp only [run_data_collection, hstep1, hstep2]
    try rfl
  refine ⟨hrun, ?_⟩
  rw [hrun]
  have hfil0 : st.table.filter (fun r => r.url == l1.url) = [] := by
    rw [List.filter_eq_nil_iff]
    intro r hr hbeq
    apply hnu
    rw [show l1.url = r.url from (beq_iff_eq.mp (by exact hbeq)).symm]
    exact List.mem_map_of_mem MetaRow.url hr
  rw [show (⟨(env.hashUrl l1.url ++ ".txt") :: st.storage,
      st.table ++ [⟨st.nextId, l1.title, l1.url, l1.source,
        l1.published_at, env.hashUrl l1.url ++ ".txt"⟩],
      st.nextId + 1⟩ : CollectState).table =
    st.table ++ [⟨st.nextId, l1.title, l1.url, l1.source,
      l1.published_at, env.hashUrl l1.url ++ ".txt"⟩] from rfl]
  rw [List.filter_append, hfil0]
  simp

/-! ## C3 -/

/-- **C3**: the Collection Phase returns exactly the number of metadata
rows it added (duplicates and skips excluded); a second run from the state
the first run produced changes nothing and returns 0; and a feed carrying
two references with the same url yields exactly one stored row for that
url. -/
theorem c3_collection_counts_and_idempotent :
    (∀ (env : CollectEnv) (links : List LinkData) (st : CollectState),
      (run_data_collection env links st).1.table.length =
        st.table.length + (run_data_collection env links st).2) ∧
    (∀ (env : CollectEnv) (links : List LinkData) (st : CollectState),
      run_data_collection env links (run_data_collection env links st).1 =
        ((run_data_collection env links st).1, 0)) ∧
    (∀ (env : CollectEnv) (st : CollectState) (l1 l2 : LinkData)
        (text : String),
      l1.url = l2.url → env.content l1.url = some text →
      env.hashUrl l1.url ++ ".txt" ∉ st.storage →
      env.store.uploadErr (env.hashUrl l1.url ++ ".txt") = none →
      env.store.insertErr l1.url = false →
      l1.url ∉ st.table.map MetaRow.url →
      ((run_data_collection env [l1, l2] st).1.table.filter
        (fun r => r.url == l1.url)).length = 1) := by
  refine ⟨run_count, ?_, ?_⟩
  · intro env links st
    exact run_of_handled env links (run_data_collection env links st).1
      (run_establishes_handled env links st)
  · intro env st l1 l2 text hurl hc hfresh hue hie hnu
    exact (collect_dup_url env st l1 l2 text hurl hc hfresh hue hie hnu).2

/-- A store with no injected failures. -/
def cStore : StoreEnv := ⟨fun _ => none, fun _ => false⟩

/-- A feed whose every page fetch yields the same long-enough body. -/
def cEnv : CollectEnv where
  store := cStore
  content := fun _ => some "cuerpo del articulo"
  hashUrl := fun u => u

def cLink1 : LinkData := ⟨"titulo A", "http-u", "Expansion", "2024-01-01"⟩

def cLink2 : LinkData := ⟨"titulo B", "http-u", "Expansion", "2024-01-01"⟩

/-- **C3** (witness): a concrete feed with two references to the same url
inserts once, counts 1 and is a no-op when re-run. -/
theorem c3_witness :
    (run_data_collection cEnv [cLink1, cLink2] ⟨[], [], 0⟩).2 = 1 ∧
    ((run_data_collection cEnv [cLink1, cLink2] ⟨[], [], 0⟩).1.table.filter
      (fun r => r.url == cLink1.url)).length = 1 ∧
    run_data_collection cEnv [cLink1, cLink2]
        (run_data_collection cEnv [cLink1, cLink2] ⟨[], [], 0⟩).1 =
      ((run_data_collection cEnv [cLink1, cLink2] ⟨[], [], 0⟩).1, 0) :=
  ⟨by decide,
    c3_collection_counts_and_idempotent.2.2 cEnv ⟨[], [], 0⟩ cLink1 cLink2
      "cuerpo del articulo" rfl rfl (by decide) rfl rfl (by decide),
    c3_collection_counts_and_idempotent.2.1 cEnv [cLink1, cLink2] ⟨[], [], 0⟩⟩

/-! ## C4 -/

/-- The sources routed through the headless browser
(src/agents/scrapers/news_agent.py:20). -/
def SELENIUM_SOURCES : List String :=
  ["Bloomberg", "ABC", "ElEconomista", "ElMundoFinanciero"]

/-- Page-level outcomes of the two fetch paths: `selenium_page` is
`_get_content_with_selenium` (rendered page text, `none` when the driver
raises), `http_page` is the requests fetch plus `_extract_text_from_html`
(`none` when the request raises). -/
structure FetchEnv where
  selenium_page : String → Option String
  http_page : String → Option String

/-- `get_article_content(url)` (src/agents/scrapers/news_agent.py:155-183):
Selenium sources return whatever the rendered extraction yields, with no
minimum-length check; the plain-HTTP path discards any text shorter than
250 characters. -/
def get_article_content (fenv : FetchEnv) (source_name url : String) :
    Option String :=
  if source_name ∈ SELENIUM_SOURCES then
    fenv.selenium_page url
  else
    match fenv.http_page url with
    | none => none
    | some text => if text.length < 250 then none else some text

/-- A Selenium-rendered page whose specialised selector misses, so the
extraction falls back and yields the empty string. -/
def selFetch : FetchEnv where
  selenium_page := fun _ => some ""
  http_page := fun _ => none

/-- Collection wired to the Bloomberg (Selenium) agent. -/
def selCollectEnv : CollectEnv where
  store := cStore
  content := get_article_content selFetch "Bloomberg"
  hashUrl := fun u => u

/-- **C4** (counterexample): for a Selenium source the empty extraction is
not skipped: `_get_content_with_selenium` has no minimum-length check and
`""` is not `None`, so the Collection Phase uploads a blob and writes a
metadata row for an article whose extracted text is empty (length 0, far
below the 250-character threshold). -/
theorem c4_counterexample :
    ("Bloomberg" ∈ SELENIUM_SOURCES) ∧
    (get_article_content selFetch "Bloomberg" "u" = some "") ∧
    (String.length "" < 250) ∧
    (run_data_collection selCollectEnv [⟨"t", "u", "Bloomberg", "d"⟩]
        ⟨[], [], 0⟩ =
      (⟨["u.txt"], [⟨0, "t", "u", "Bloomberg", "d", "u.txt"⟩], 1⟩, 1)) := by
  decide

/-- **C4** (amended): a `None` extraction always skips the article on both
fetch paths (no blob, no row); on the plain-HTTP path any text below 250
characters is converted to `None` and hence skipped; but on the Selenium
path the extraction is returned as-is with no length check, so empty or
short rendered text is processed, not skipped. -/
theorem c4_amended :
    (∀ (env : CollectEnv) (st : CollectState) (l : LinkData),
      env.content l.url = none → collectStep env st l = (st, false)) ∧
    (∀ (fenv : FetchEnv) (source url text : String),
      source ∉ SELENIUM_SOURCES → fenv.http_page url = some text →
      text.length < 250 → get_article_content fenv source url = none) ∧
    (∀ (fenv : FetchEnv) (source url : String),
      source ∈ SELENIUM_SOURCES →
      get_article_content fenv source url = fenv.selenium_page url) := by
  refine ⟨?_, ?_, ?_⟩
  · intro env st l h
    simp [collectStep, h]
  · intro fenv source url text hsel hhttp hshort
    unfold get_article_content
    rw [if_neg hsel, hhttp]
    simp [hshort]
  · intro fenv source url hsel
    unfold get_article_content
    rw [if_pos hsel]

/-- A driver that raises on every page plus an HTTP path returning a
5-character text. -/
def shortFetch : FetchEnv where
  selenium_page := fun _ => none
  http_page := fun _ => some "pocas"

/-- Collection wired to a Bloomberg agent whose driver always raises. -/
def noTextEnv : CollectEnv where
  store := cStore
  content := get_article_content shortFetch "Bloomberg"
  hashUrl := fun u => u

/-- **C4** (witness): the amended theorem at concrete inputs — a failed
fetch is skipped, a 5-character HTTP text is rejected, and the Bloomberg
path hands back the rendered text unchecked. -/
theorem c4_amended_witness :
    collectStep noTextEnv ⟨[], [], 0⟩ ⟨"t", "u2", "Bloomberg", "d"⟩ =
        (⟨[], [], 0⟩, false) ∧
    get_article_content shortFetch "Expansion" "u" = none ∧
    get_article_content selFetch "Bloomberg" "u" =
      selFetch.selenium_page "u" := by
  refine ⟨?_, ?_, ?_⟩
  · exact c4_amended.1 noTextEnv ⟨[], [], 0⟩ ⟨"t", "u2", "Bloomberg", "d"⟩
      (by decide)
  · exact c4_amended.2.1 shortFetch "Expansion" "u" "pocas" (by decide) rfl
      (by decide)
  · exact c4_amended.2.2 selFetch "Bloomberg" "u" (by decide)

/-! ## C8 -/

/-- **C8**: `upload_article_text` treats an already-existing object as a
successful write.  When the path is already stored, the backend's 409
duplicate report is caught and the storage path is returned as on success;
any raised error whose message carries the duplicate marker (`"Duplicate"`
or `"409"`, the way this store reports already-exists) also yields the
path; every error without the marker yields `None`; a plain success
yields the path. -/
theorem c8_duplicate_upload_is_success (env : StoreEnv)
    (storage : List String) (article_id t : String) :
    ((article_id ++ ".txt") ∈ storage →
      (upload_article_text env storage article_id t).1 =
        some (article_id ++ ".txt")) ∧
    (∀ msg, (storageUpload env storage (article_id ++ ".txt")).1 = .err msg →
      dupMarker msg = true →
      (upload_article_text env storage article_id t).1 =
        some (article_id ++ ".txt")) ∧
    (∀ msg, (storageUpload env storage (article_id ++ ".txt")).1 = .err msg →
      dupMarker msg = false →
      (upload_article_text env storage article_id t).1 = none) ∧
    (∀ p, (storageUpload env storage (article_id ++ ".txt")).1 = .ok p →
      (upload_article_text env storage article_id t).1 =
        some (article_id ++ ".txt")) := by
  refine ⟨?_, ?_, ?_, ?_⟩
  · intro h
    rw [upload_dup env storage article_id t h]
  · intro msg hmsg hm
    simp only [upload_article_text]
    rcases hsp : storageUpload env storage (article_id ++ ".txt") with ⟨r, s⟩
    rw [hsp] at hmsg
    simp only at hmsg
    subst hmsg
    simp [hm]
  · intro msg hmsg hm
    simp only [upload_article_text]
    rcases hsp : storageUpload env storage (article_id ++ ".txt") with ⟨r, s⟩
    rw [hsp] at hmsg
    simp only at hmsg
    subst hmsg
    simp [hm]
  · intro p hp
    simp only [upload_article_text]
    rcases hsp : storageUpload env storage (article_id ++ ".txt") with ⟨r, s⟩
    rw [hsp] at hp
    simp only at hp
    subst hp
    simp

/-- A store whose fresh upload of `b.txt` raises a plain server error. -/
def err500Store : StoreEnv :=
  ⟨fun p => if p = "b.txt" then some "500 internal error" else none,
    fun _ => false⟩

/-- **C8** (witness): with `a.txt` already stored, uploading `a` again
returns the path; uploading `b` hits the marker-free 500 error and
returns `None`. -/
theorem c8_duplicate_upload_is_success_witness :
    (upload_article_text err500Store ["a.txt"] "a" "t").1 = some "a.txt" ∧
    (upload_article_text err500Store ["a.txt"] "b" "t").1 = none := by
  constructor
  · exact (c8_duplicate_upload_is_success err500Store ["a.txt"] "a" "t").1
      (by decide)
  · exact (c8_duplicate_upload_is_success err500Store ["a.txt"] "b"
      "t").2.2.1 "500 internal error" (by decide) (by decide)

/-! ## Feature Assembly: data model (prediction_model.py)

Dates are day-granular integers: both frames are normalized to the day
(`.normalize()` on the price index, `.dt.normalize().dt.tz_localize(None)`
on the sentiment timestamps) before any join. -/

/-- One daily price row after `load_price_data` keeps `Open, Close, Volume`
and flattens the index (`open` is a Lean keyword, hence `openPrice`). -/
structure PriceRow where
  date : ℤ
  openPrice : ℚ
  close : ℚ
  volume : ℚ
  deriving DecidableEq

/-- A record from `get_analyzed_sentiment_data` as `load_sentiment_data`
uses it: day-normalized timestamp, ticker, the two scores and the url the
aggregation counts. -/
structure SentRow where
  published_at : ℤ
  stock_ticker : String
  sentiment_score : ℚ
  relevance_score : ℚ
  url : String
  deriving DecidableEq

/-- One row of the `daily_sentiment` frame: the groupby index (unique
dates) with `sentiment_sum` and `news_count`. -/
structure SentAgg where
  date : ℤ
  sentiment_sum : ℚ
  news_count : ℕ
  deriving DecidableEq

/-- `load_price_data` (src/core/prediction_model.py:13-42) on the series
the price source returned: an empty download raises `ValueError`; the
column selection, header flattening and index normalization are identity
in this day-granular model. -/
def load_price_data (downloaded : List PriceRow) :
    Except String (List PriceRow) :=
  if downloaded.isEmpty then
    .error "No se pudieron descargar datos"
  else
    .ok downloaded

/-- The groupby of `load_sentiment_data`: for each distinct date, the sum
of `sentiment_score * relevance_score` and the count of urls. -/
def aggregateDaily (rows : List SentRow) : List SentAgg :=
  ((rows.map SentRow.published_at).dedup).map fun d =>
    ⟨d, ((rows.filter fun r => r.published_at == d).map
        fun r => r.sentiment_score * r.relevance_score).sum,
      (rows.filter fun r => r.published_at == d).length⟩

/-- `load_sentiment_data` (src/core/prediction_model.py:44-68): raises on
an empty store export, filters to the ticker, raises when nothing matches,
then aggregates per day. -/
def load_sentiment_data (all_data : List SentRow) (ticker : String) :
    Except String (List SentAgg) :=
  if all_data.isEmpty then
    .error "No hay datos de sentimiento en Supabase."
  else
    if (all_data.filter fun r => r.stock_ticker == ticker).isEmpty then
      .error "No se encontraron datos de sentimiento para el ticker"
    else
      .ok (aggregateDaily (all_data.filter fun r => r.stock_ticker == ticker))

/-- One row of the final merged frame of `create_features_and_target`.
`future_close = none` models the `NaN` the `shift(-1)` leaves on the last
row; the sentiment columns are already zero-filled so they carry no
missing values. -/
structure FeatureRow where
  date : ℤ
  openPrice : ℚ
  close : ℚ
  volume : ℚ
  sentiment_sum : ℚ
  news_count : ℚ
  future_close : Option ℚ
  target : ℕ
  deriving DecidableEq

/-- Index lookup into the `daily_sentiment` frame (its groupby index is
unique, so first-match lookup is the pandas left-join). -/
def lookupSent (sent : List SentAgg) (d : ℤ) : Option SentAgg :=
  sent.find? fun s => s.date == d

/-- One merged row: the left join brings the sentiment columns (`NaN` then
`fillna(0)` when the date has no sentiment row), `future_close` is the
shifted next close, and `target = (future_close > Close).astype(int)` —
with `NaN > x` being `False`, hence 0 on the last row. -/
def mergeRow (p : PriceRow) (sent : List SentAgg) (future : Option ℚ) :
    FeatureRow :=
  { date := p.date, openPrice := p.openPrice, close := p.close,
    volume := p.volume,
    sentiment_sum :=
      match lookupSent sent p.date with
      | some s => s.sentiment_sum
      | none => 0,
    news_count :=
      match lookupSent sent p.date with
      | some s => (s.news_count : ℚ)
      | none => 0,
    future_close := future,
    target :=
      match future with
      | some f => if p.close < f then 1 else 0
      | none => 0 }

/-- The `shift(-1)` pass: each row's `future_close` is the next row's
close, `none` on the last row. -/
def addTargets (sent : List SentAgg) : List PriceRow → List FeatureRow
  | [] => []
  | [p] => [mergeRow p sent none]
  | p :: q :: rest => mergeRow p sent (some q.close) :: addTargets sent (q :: rest)

/-- `create_features_and_target` (src/core/prediction_model.py:70-88):
left-join on the date index, `fillna(0)` on both sentiment columns,
`future_close`/`target` via the one-step shift, then `dropna()`.  After
the fill the only possibly-missing value left in the frame is the last
row's `future_close`, so `dropna` keeps exactly the rows whose
`future_close` exists. -/
def create_features_and_target (prices : List PriceRow)
    (sent : List SentAgg) : List FeatureRow :=
  (addTargets sent prices).filter fun m => m.future_close.isSome

theorem create_nil (sent : List SentAgg) :
    create_features_and_target [] sent = [] := rfl

theorem create_single (sent : List SentAgg) (p : PriceRow) :
    create_features_and_target [p] sent = [] := rfl

theorem create_cons (sent : List SentAgg) (p q : PriceRow)
    (rest : List PriceRow) :
    create_features_and_target (p :: q :: rest) sent =
      mergeRow p sent (some q.close) ::
        create_features_and_target (q :: rest) sent := rfl

/-- The final frame drops exactly one row: the last. -/
theorem create_len (sent : List SentAgg) :
    ∀ prices : List PriceRow,
      (create_features_and_target prices sent).length =
        prices.length - 1 := by
  intro prices
  induction prices with
  | nil => rfl
  | cons p rest ih =>
    cases rest with
    | nil => rfl
    | cons q rest2 =>
      rw [create_cons, List.length_cons]
      rw [ih]
      simp only [List.length_cons]
      omega

/-- Row `i` of the final frame is the merge of price row `i` with the next
close taken from price row `i + 1`. -/
theorem create_get (sent : List SentAgg) :
    ∀ (prices : List PriceRow) (i : ℕ)
      (hc : i < (create_features_and_target prices sent).length)
      (hp : i < prices.length) (hq : i + 1 < prices.length),
      (create_features_and_target prices sent)[i] =
        mergeRow prices[i] sent (some prices[i + 1].close) := by
  intro prices
  induction prices with
  | nil =>
    intro i hc hp hq
    simp at hp
  | cons p rest ih =>
    cases rest with
    | nil =>
      intro i hc hp hq
      simp at hq
    | cons q rest2 =>
      intro i hc hp hq
      cases i with
      | zero => rfl
      | succ j =>
        have hj : j + 1 < (q :: rest2).length := by
          simp at hq ⊢
          omega
        have hc2 : j <
            (create_features_and_target (q :: rest2) sent).length := by
          rw [create_len] at hc ⊢
          simp at hc ⊢
          omega
        have hp2 : j < (q :: rest2).length := by omega
        have := ih j hc2 hp2 hj
        simp only [create_cons, List.getElem_cons_succ]
        exact this

/-! ## C5 -/

/-- Concrete three-day close series `[10, 12, 9]`. -/
def pRows : List PriceRow := [⟨0, 1, 10, 1⟩, ⟨1, 1, 12, 1⟩, ⟨2, 1, 9, 1⟩]

/-- A one-day sentiment aggregate used by the witnesses. -/
def sAgg : List SentAgg := [⟨0, 5, 2⟩]

/-- **C5**: over a date-indexed close series the assembled frame has
`target = 1` on a row exactly when the next row's close strictly exceeds
that row's close (else 0), keeps the row's date, and drops exactly the
final row whose target has no forward value; the close series
`[10, 12, 9]` yields `target = [1, 0]`.  (The sentiment frame is a
groupby result, so its dates are unique — recorded by the `Nodup`
hypothesis.) -/
theorem c5_target_label (prices : List PriceRow) (sent : List SentAgg)
    (_hnd : (sent.map SentAgg.date).Nodup) :
    ((create_features_and_target prices sent).length = prices.length - 1) ∧
    (∀ (i : ℕ) (hc : i < (create_features_and_target prices sent).length)
        (hp : i < prices.length) (hq : i + 1 < prices.length),
      ((create_features_and_target prices sent)[i].target =
        if prices[i].close < prices[i + 1].close then 1 else 0) ∧
      (create_features_and_target prices sent)[i].date = prices[i].date) ∧
    ((create_features_and_target pRows []).map FeatureRow.target =
      [1, 0]) := by
  refine ⟨create_len sent prices, ?_, by decide⟩
  intro i hc hp hq
  rw [create_get sent prices i hc hp hq]
  exact ⟨rfl, rfl⟩

/-- **C5** (witness): the theorem at the `[10, 12, 9]` series. -/
theorem c5_target_label_witness :
    ((create_features_and_target pRows sAgg).length = pRows.length - 1) ∧
    ((create_features_and_target pRows []).map FeatureRow.target =
      [1, 0]) :=
  ⟨(c5_target_label pRows sAgg (by decide)).1,
    (c5_target_label pRows [] (by decide)).2.2⟩

/-! ## C6 -/

/-- **C6**: a price date with no matching sentiment row is zero-filled —
the left join leaves `NaN` and `fillna(0)` turns both `sentiment_sum` and
`news_count` into 0 — and the row is retained at its position in the
final frame (only the last row is dropped, for its undefined target). -/
theorem c6_zero_fill (prices : List PriceRow) (sent : List SentAgg)
    (_hnd : (sent.map SentAgg.date).Nodup)
    (i : ℕ) (hc : i < (create_features_and_target prices sent).length)
    (hp : i < prices.length) (hq : i + 1 < prices.length)
    (hmiss : lookupSent sent prices[i].date = none) :
    ((create_features_and_target prices sent)[i].sentiment_sum = 0) ∧
    ((create_features_and_target prices sent)[i].news_count = 0) ∧
    ((create_features_and_target prices sent)[i].date = prices[i].date) ∧
    ((create_features_and_target prices sent).length =
      prices.length - 1) := by
  rw [create_get sent prices i hc hp hq]
  refine ⟨?_, ?_, rfl, create_len sent prices⟩
  · simp [mergeRow, hmiss]
  · simp [mergeRow, hmiss]

/-- **C6** (witness): day `1` of the `[10, 12, 9]` series has no
sentiment row in `sAgg`; its assembled row is zero-filled and retained. -/
theorem c6_zero_fill_witness :
    ((create_features_and_target pRows sAgg)[1]?.map
      FeatureRow.sentiment_sum = some 0) ∧
    ((create_features_and_target pRows sAgg)[1]?.map
      FeatureRow.news_count = some 0) := by
  have h := c6_zero_fill pRows sAgg (by decide) 1 (by decide) (by decide)
    (by decide) (by decide)
  refine ⟨?_, ?_⟩
  · rw [List.getElem?_eq_getElem (by decide)]
    exact congrArg some h.1
  · rw [List.getElem?_eq_getElem (by decide)]
    exact congrArg some h.2.1

/-! ## C7 -/

/-- **C7**: both loaders fail with an explicit raised error instead of an
empty table: an empty price download raises, an empty sentiment export
raises, and a non-empty export with no row for the requested ticker
raises. -/
theorem c7_no_data_raises :
    (∀ downloaded : List PriceRow, downloaded = [] →
      load_price_data downloaded =
        .error "No se pudieron descargar datos") ∧
    (∀ (all_data : List SentRow) (ticker : String), all_data = [] →
      load_sentiment_data all_data ticker =
        .error "No hay datos de sentimiento en Supabase.") ∧
    (∀ (all_data : List SentRow) (ticker : String),
      all_data ≠ [] →
      all_data.filter (fun r => r.stock_ticker == ticker) = [] →
      load_sentiment_data all_data ticker =
        .error "No se encontraron datos de sentimiento para el ticker") := by
  refine ⟨?_, ?_, ?_⟩
  · intro downloaded h
    subst h
    rfl
  · intro all_data ticker h
    subst h
    rfl
  · intro all_data ticker hne hfil
    unfold load_sentiment_data
    rw [if_neg (by simpa using hne), hfil]
    rfl

/-- A store export holding one scored article for ticker `SAN`. -/
def sanRows : List SentRow := [⟨0, "SAN", 1, 2, "u"⟩]

/-- **C7** (witness): the three error paths at concrete inputs, including
a non-empty export that lacks the requested ticker `BBVA`. -/
theorem c7_no_data_raises_witness :
    (load_price_data [] = .error "No se pudieron descargar datos") ∧
    (load_sentiment_data [] "BBVA" =
      .error "No hay datos de sentimiento en Supabase.") ∧
    (load_sentiment_data sanRows "BBVA" =
      .error "No se encontraron datos de sentimiento para el ticker") :=
  ⟨c7_no_data_raises.1 [] rfl,
    c7_no_data_raises.2.1 [] "BBVA" rfl,
    c7_no_data_raises.2.2 sanRows "BBVA" (by decide) (by decide)⟩
